import Mathlib

/-!
Shallow embedding of the cvmfs-rust client core (catalog resolution,
manifest / root-file parsing, chunked file I/O, history tags) together
with theorems settling the frozen claims about its specification.

Strings from the Rust source are modelled as lists of characters
(Str).  The repository only ever feeds ASCII data (hex hashes,
repository paths, key-value manifest lines) through the code under
study, so one character corresponds to one byte; places where the Rust
code indexes bytes of a string are modelled as character indexing and
carry a comment.
-/

/-- Character-list model of Rust String / str slices (one char = one byte
for the ASCII data handled by this client). -/
abbrev Str := List Char

/-- Error enum from src/common.rs (CvmfsError).  Payload strings are kept
for the variants whose payload the claims inspect. -/
inductive CvmfsError where
  | Certificate
  | ioError (msg : Str)
  | IncompleteRootFileSignature
  | InvalidRootFileSignature
  | CacheDirectoryNotFound
  | DatabaseError (msg : Str)
  | CatalogInitialization
  | FileNotFound
  | HistoryNotFound
  | RevisionNotFound
  | InvalidTimestamp
  | ParseError
  | Sync
  | CatalogNotFound
  | TagNotFound
  | Generic (msg : Str)
  | NotAFile
  deriving DecidableEq, Repr

/-- POSIX errno ENOENT on Linux. -/
def enoentErrno : Int := 2

/-- POSIX errno ENOSYS on Linux. -/
def enosysErrno : Int := 38

/-- The impl From CvmfsError for i32 in src/common.rs lines 188-192: the
conversion ignores the error variant and always yields libc ENOSYS. -/
def cvmfsErrorToI32 (_ : CvmfsError) : Int := enosysErrno

/-- Fields of the FUSE FileAttr that getattr computes from a looked-up
directory entry (src/file_system.rs lines 124-151); only the fields
derived from the entry are modelled. -/
structure FileAttrM where
  size : Nat
  blocks : Nat
  time : Int
  perm : Nat
  flags : Nat
  deriving DecidableEq, Repr

/-- Result row data getattr needs from Repository lookup. -/
structure LookupEntryM where
  size : Nat
  mode : Nat
  mtime : Int
  flags : Nat
  deriving DecidableEq, Repr

/-- CernvmFileSystem getattr (src/file_system.rs lines 124-151), modelled
from the point where repo lookup has produced its result: an error from
lookup propagates through the question-mark operator, which converts it
with the From impl above; on success chrono DateTime from_timestamp is
consulted (external crate, passed in as tsValid) and the FileAttr is
assembled.  The path conversion and repository lock, which precede the
lookup, are assumed to succeed. -/
def getattrModel (tsValid : Int → Bool) (lookup : Except CvmfsError LookupEntryM) :
    Except Int FileAttrM :=
  match lookup with
  | Except.error e => Except.error (cvmfsErrorToI32 e)
  | Except.ok d =>
    if tsValid d.mtime then
      Except.ok { size := d.size, blocks := 1 + d.size / 512, time := d.mtime,
                  perm := d.mode &&& 0o7777, flags := d.flags }
    else
      Except.error (cvmfsErrorToI32 CvmfsError.InvalidTimestamp)

/-- Digit test used by the integer-parsing model. -/
def isDigitCh (c : Char) : Bool := '0' ≤ c ∧ c ≤ '9'

/-- Numeric value of a decimal digit character. -/
def digitVal (c : Char) : Nat := c.toNat - '0'.toNat

/-- Decimal value of a digit string. -/
def digitsToNat (s : Str) : Nat := s.foldl (fun acc c => acc * 10 + digitVal c) 0

/-- Rust str parse to an unsigned integer (u32/u64 by bound): optional
leading plus sign, then one or more ASCII digits, value within bound. -/
def parseUNat (bound : Nat) (s : Str) : Option Nat :=
  let t := if s.head? = some '+' then s.drop 1 else s
  if t ≠ [] ∧ t.all isDigitCh ∧ digitsToNat t ≤ bound then some (digitsToNat t) else none

/-- Rust str parse to i64: optional sign then digits, within i64 range. -/
def parseI64 (s : Str) : Option Int :=
  if s.head? = some '-' then
    let t := s.drop 1
    if t ≠ [] ∧ t.all isDigitCh ∧ digitsToNat t ≤ 2 ^ 63 then
      some (-(digitsToNat t : Int))
    else none
  else
    (parseUNat (2 ^ 63 - 1) s).map (fun n => (n : Int))

/-- Manifest fields (src/manifest.rs struct Manifest), without the
embedded root file. -/
structure ManifestM where
  root_catalog : Str := []
  root_hash : Str := []
  root_catalog_size : Nat := 0
  certificate : Str := []
  history_database : Option Str := none
  last_modified_millis : Int := 0
  ttl : Nat := 0
  revision : Nat := 0
  repository_name : Str := []
  micro_catalog : Str := []
  garbage_collectable : Bool := false
  allows_alternative_name : Bool := false
  deriving DecidableEq, Repr

/-- Outcome of running Manifest construction: the Rust code can panic
(parse_boolean), return Err, or return Ok. -/
inductive MOutcome where
  | panics
  | fails (e : CvmfsError)
  | ok (m : ManifestM)
  deriving DecidableEq, Repr

/-- Manifest parse_boolean (src/manifest.rs lines 30-36): yes and no are
accepted; every other value hits the panic arm, modelled as none. -/
def parse_boolean (value : Str) : Option Bool :=
  if value = "yes".toList then some true
  else if value = "no".toList then some false
  else none

/-- One step of the Manifest.new line loop (src/manifest.rs lines 52-76):
the first character selects the field, the remainder of the line is the
value (byte slice line[1..], char-level here).  tsValid models chrono
DateTime from_timestamp_millis returning Some. -/
def manifestLine (tsValid : Int → Bool) (m : ManifestM) (line : Str) :
    MOutcome :=
  match line with
  | [] => MOutcome.ok m
  | key :: value =>
    match key with
    | 'C' => MOutcome.ok { m with root_catalog := value }
    | 'R' => MOutcome.ok { m with root_hash := value }
    | 'B' =>
      match parseUNat (2 ^ 32 - 1) value with
      | none => MOutcome.fails CvmfsError.ParseError
      | some n => MOutcome.ok { m with root_catalog_size := n }
    | 'X' => MOutcome.ok { m with certificate := value }
    | 'H' => MOutcome.ok { m with history_database := some value }
    | 'T' =>
      match parseI64 value with
      | none => MOutcome.fails CvmfsError.InvalidTimestamp
      | some n =>
        if tsValid n then MOutcome.ok { m with last_modified_millis := n }
        else MOutcome.fails CvmfsError.InvalidTimestamp
    | 'D' =>
      match parseUNat (2 ^ 32 - 1) value with
      | none => MOutcome.fails CvmfsError.ParseError
      | some n => MOutcome.ok { m with ttl := n }
    | 'S' =>
      match parseUNat (2 ^ 32 - 1) value with
      | none => MOutcome.fails CvmfsError.ParseError
      | some n => MOutcome.ok { m with revision := n }
    | 'N' => MOutcome.ok { m with repository_name := value }
    | 'L' => MOutcome.ok { m with micro_catalog := value }
    | 'G' =>
      match parse_boolean value with
      | none => MOutcome.panics
      | some b => MOutcome.ok { m with garbage_collectable := b }
    | 'A' =>
      match parse_boolean value with
      | none => MOutcome.panics
      | some b => MOutcome.ok { m with allows_alternative_name := b }
    | _ => MOutcome.ok m

/-- The Manifest.new loop over the root file lines. -/
def manifestLoop (tsValid : Int → Bool) (m : ManifestM) :
    List Str → MOutcome
  | [] => MOutcome.ok m
  | line :: rest =>
    match manifestLine tsValid m line with
    | MOutcome.ok m2 => manifestLoop tsValid m2 rest
    | other => other

/-- Manifest.new (src/manifest.rs lines 38-93) applied to the lines of
the root file (RootFile lines splits the contents on newline). -/
def manifestNew (tsValid : Int → Bool) (lines : List Str) : MOutcome :=
  manifestLoop tsValid {} lines

/-- Split a character list at every occurrence of sep (Rust str split). -/
def splitChar (sep : Char) : Str → List Str
  | [] => [[]]
  | c :: rest =>
    match splitChar sep rest with
    | [] => [[]]
    | g :: gs => if c = sep then [] :: g :: gs else (c :: g) :: gs

/-- Normal segments of a Rust std Path: split on the separator, dropping
empty segments and interior CurDir segments, as Rust Components does. -/
def pathSegs (s : Str) : List Str :=
  (splitChar '/' s).filter (fun seg => seg ≠ [] ∧ seg ≠ ['.'])

/-- Component list of a Rust std Path over Str: a leading RootDir
component (encoded as the one-character segment /) for absolute paths, a
leading CurDir component (encoded as .) for paths that are . or start
with ./, then the normal segments.  ParentDir segments are kept verbatim
as the two-character segment .., which Rust also compares by equality. -/
def pathComps (s : Str) : List Str :=
  if s.head? = some '/' then ['/'] :: pathSegs s
  else if s.head? = some '.' ∧ ((s.drop 1) = [] ∨ (s.drop 1).head? = some '/') then
    ['.'] :: pathSegs s
  else pathSegs s

/-- Rust std Path starts_with: component-wise prefix test.  Used by
find_nested_for_path (src/catalog.rs line 353). -/
def startsWithPath (base pat : Str) : Bool :=
  (pathComps pat).isPrefixOf (pathComps base)

/-- canonicalize_path from src/common.rs lines 221-225: Path canonicalize
resolves against the local filesystem and fails for paths that do not
exist there; repository paths are virtual, so the unwrap_or branch
returns the input unchanged.  The embedding models that branch. -/
def canonicalize_path (path : Str) : Str := path

/-- Catalog path_sanitized (src/catalog.rs lines 323-327): equal length,
or the needle is longer and its character at position len(catalog_path)
is a slash.  The Rust code measures len() in bytes and indexes the
collected chars; for the ASCII paths handled here these agree. -/
def path_sanitized (needle_path catalog_path : Str) : Bool :=
  needle_path.length == catalog_path.length ||
    (catalog_path.length < needle_path.length &&
      (needle_path.drop catalog_path.length).head? == some '/')

/-- Nested catalog reference (src/catalog.rs struct CatalogReference). -/
structure CatalogReference where
  root_path : Str
  catalog_hash : Str
  catalog_size : Nat
  deriving DecidableEq, Repr

/-- The for loop of find_nested_for_path (src/catalog.rs lines 349-360),
with best_match_score and best_match threaded explicitly. -/
def findNestedLoop (needle_path : Str) :
    List CatalogReference → Nat → Option CatalogReference → Option CatalogReference
  | [], _, best_match => best_match
  | r :: rest, best_match_score, best_match =>
    if startsWithPath (canonicalize_path needle_path) r.root_path &&
        decide (best_match_score < r.root_path.length) &&
        path_sanitized needle_path r.root_path then
      findNestedLoop needle_path rest r.root_path.length (some r)
    else
      findNestedLoop needle_path rest best_match_score best_match

/-- Catalog find_nested_for_path (src/catalog.rs lines 347-362) applied
to the list of nested references returned by list_nested. -/
def find_nested_for_path (refs : List CatalogReference) (needle_path : Str) :
    Option CatalogReference :=
  findNestedLoop needle_path refs 0 none

/-- The condition under which the loop of find_nested_for_path can ever
select a reference (score threshold at its initial value zero). -/
def nestedMatch (needle_path : Str) (r : CatalogReference) : Prop :=
  startsWithPath (canonicalize_path needle_path) r.root_path = true ∧
    0 < r.root_path.length ∧ path_sanitized needle_path r.root_path = true

instance (needle_path : Str) (r : CatalogReference) :
    Decidable (nestedMatch needle_path r) := by
  unfold nestedMatch; infer_instance

/-- RootFile (src/root_file.rs struct RootFile). -/
structure RootFileM where
  checksum : Option Str
  contents : Str
  deriving DecidableEq, Repr

/-- Outcome of RootFile construction: the byte-slice buffer[..2] panics
on a line shorter than two bytes, other paths return Err or Ok. -/
inductive RFOutcome where
  | panics
  | fails (e : CvmfsError)
  | ok (rf : RootFileM)
  deriving DecidableEq, Repr

/-- Intermediate result of the read loop of RootFile new. -/
inductive RFLoopResult where
  | panics
  | fails (e : CvmfsError)
  | done (checksum : Option Str) (contents : Str)
  deriving DecidableEq, Repr

/-- Split a byte stream into the successive results of read_line: each
chunk extends up to and including a newline, the last chunk may lack
one; EOF is the end of the list.  Chunks are never empty. -/
def lineSplit : Str → List Str
  | [] => []
  | c :: rest =>
    if c = '\n' then ['\n'] :: lineSplit rest
    else
      match lineSplit rest with
      | [] => [[c]]
      | g :: gs => (c :: g) :: gs

/-- Error message used by RootFile new for a malformed checksum line. -/
def ioLenMsg : Str := "Input does not have 41 bytes".toList

/-- The read loop of RootFile new (src/root_file.rs lines 113-133): a
line shorter than 2 bytes makes buffer[..2] panic; a line whose first
two bytes are dashes is the terminator, after which exactly 41 bytes
must be read (40 hex characters of the checksum plus newline) or the
constructor fails with an IO error; any other line is appended to the
contents. -/
def rfLoop : List Str → Str → RFLoopResult
  | [], contents => RFLoopResult.done none contents
  | line :: rest, contents =>
    if line.length < 2 then RFLoopResult.panics
    else if line.take 2 = ['-', '-'] then
      match rest with
      | [] => RFLoopResult.fails (CvmfsError.ioError ioLenMsg)
      | c :: _ =>
        if c.length ≠ 41 then RFLoopResult.fails (CvmfsError.ioError ioLenMsg)
        else RFLoopResult.done (some (c.take 40)) contents
    else rfLoop rest (contents ++ line)

/-- RootFile new (src/root_file.rs lines 106-152).  The external sha1
crate is passed in as sha1hex, the hex-encoded SHA-1 of a byte string;
after the read loop the computed digest of the accumulated contents is
compared against the stored checksum. -/
def root_file_new (sha1hex : Str → Str) (file : Str) : RFOutcome :=
  match rfLoop (lineSplit file) [] with
  | RFLoopResult.panics => RFOutcome.panics
  | RFLoopResult.fails e => RFOutcome.fails e
  | RFLoopResult.done checksum contents =>
    match checksum with
    | some c =>
      if sha1hex contents ≠ c then RFOutcome.fails CvmfsError.InvalidRootFileSignature
      else RFOutcome.ok ⟨some c, contents⟩
    | none => RFOutcome.ok ⟨none, contents⟩

/-- Content hash algorithms (src/directory_entry.rs ContentHashTypes). -/
inductive ContentHashTypes where
  | Unknown
  | Sha1
  | Ripemd160
  | UpperBound
  deriving DecidableEq, Repr

/-- The From u32 impl for ContentHashTypes. -/
def contentHashTypeOfNat (value : Nat) : ContentHashTypes :=
  match value with
  | 1 => ContentHashTypes.Sha1
  | 2 => ContentHashTypes.Ripemd160
  | 3 => ContentHashTypes.UpperBound
  | _ => ContentHashTypes.Unknown

/-- The while loop of read_content_hash_type counting the trailing zero
bits of the mask; fuel 32 covers a u32 mask. -/
def shiftCountLoop : Nat → Nat → Nat → Nat
  | 0, _, shifts => shifts
  | fuel + 1, mask, shifts =>
    if mask &&& 1 = 0 then shiftCountLoop fuel (mask >>> 1) (shifts + 1) else shifts

/-- DirectoryEntry read_content_hash_type (src/directory_entry.rs lines
471-479): extract the bits of the ContentHashTypes mask (256+512+1024),
shift right by the trailing zero count of the mask, add one, convert. -/
def read_content_hash_type (flags : Nat) : ContentHashTypes :=
  contentHashTypeOfNat (((flags &&& 1792) >>> shiftCountLoop 32 1792 0) + 1)

/-- Lowercase hex digit character for a value below 16. -/
def hexDigitCh (n : Nat) : Char :=
  if n < 10 then Char.ofNat ('0'.toNat + n) else Char.ofNat ('a'.toNat + n - 10)

/-- Lowercase hex encoding of a byte vector (the hex crate encode_hex). -/
def hexEncode (bytes : List Nat) : Str :=
  bytes.flatMap (fun b => [hexDigitCh (b / 16 % 16), hexDigitCh (b % 16)])

/-- File chunk (src/directory_entry.rs struct Chunk). -/
structure Chunk where
  offset : Nat
  size : Nat
  content_hash : Str
  content_hash_type : ContentHashTypes
  deriving DecidableEq, Repr

/-- A decoded row of the catalog table, as the queries of src/catalog.rs
select it (typed by the rusqlite row getters used in
DirectoryEntry::new): hash is a nullable blob of raw bytes. -/
structure CatalogRow where
  md5path_1 : Int
  md5path_2 : Int
  parent_1 : Int
  parent_2 : Int
  hash : Option (List Nat)
  flags : Nat
  size : Nat
  mode : Nat
  mtime : Int
  name : Str
  symlink : Option Str
  deriving DecidableEq, Repr

/-- A decoded row of the chunks table (query READ_CHUNK). -/
structure ChunkRow where
  md5path_1 : Int
  md5path_2 : Int
  offset : Nat
  size : Nat
  hash : List Nat
  deriving DecidableEq, Repr

/-- DirectoryEntry (src/directory_entry.rs struct DirectoryEntry). -/
structure DirectoryEntryM where
  md5_path_1 : Int
  md5_path_2 : Int
  parent_1 : Int
  parent_2 : Int
  content_hash : Option Str
  flags : Nat
  size : Nat
  mode : Nat
  mtime : Int
  name : Str
  symlink : Option Str
  content_hash_type : ContentHashTypes
  chunks : List Chunk
  deriving DecidableEq, Repr

/-- DirectoryEntry new (src/directory_entry.rs lines 279-297): the hash
blob, when present, is hex encoded; the chunk list starts empty. -/
def directory_entry_new (row : CatalogRow) : DirectoryEntryM :=
  { md5_path_1 := row.md5path_1
    md5_path_2 := row.md5path_2
    parent_1 := row.parent_1
    parent_2 := row.parent_2
    content_hash := row.hash.map hexEncode
    flags := row.flags
    size := row.size
    mode := row.mode
    mtime := row.mtime
    name := row.name
    symlink := row.symlink
    content_hash_type := read_content_hash_type row.flags
    chunks := [] }

/-- DirectoryEntry add_chunks (src/directory_entry.rs lines 313-334):
clear the chunk list, then push one Chunk per row of the chunks query,
inheriting the entry's hash algorithm. -/
def add_chunks (d : DirectoryEntryM) (rows : List ChunkRow) : DirectoryEntryM :=
  { d with chunks := rows.map (fun r =>
      { offset := r.offset, size := r.size, content_hash := hexEncode r.hash,
        content_hash_type := d.content_hash_type }) }

/-- DirectoryEntry has_chunks (src/directory_entry.rs lines 435-437). -/
def has_chunks (d : DirectoryEntryM) : Bool := d.content_hash.isNone

/-- Catalog make_directory_entry together with read_chunks
(src/catalog.rs lines 493-522): build the entry from its catalog row and
attach the chunk rows selected for the entry's path hash. -/
def make_directory_entry (row : CatalogRow) (chunkRows : List ChunkRow) :
    DirectoryEntryM :=
  add_chunks (directory_entry_new row) chunkRows

/-- History tag row (src/revision_tag.rs struct RevisionTag). -/
structure TagM where
  name : Str
  hash : Str
  revision : Int
  timestamp : Nat
  channel : Int
  description : Str
  deriving DecidableEq, Repr

/-- History get_tag_by_revision (src/history.rs lines 209-211) over the
tags table: SQL_QUERY_REVISION selects WHERE revision = ? LIMIT 1; the
first matching row in table order is the deterministic model of the
unordered LIMIT 1. -/
def get_tag_by_revision (tags : List TagM) (revision : Nat) : Option TagM :=
  tags.find? (fun t => t.revision == (revision : Int))

/-- Fold of SQL_QUERY_DATE over the table rows, keeping the first row
carrying the least timestamp strictly above the bound. -/
def dateLoop (ts : Nat) : List TagM → Option TagM → Option TagM
  | [], acc => acc
  | t :: rest, acc =>
    if ts < t.timestamp then
      match acc with
      | none => dateLoop ts rest (some t)
      | some b =>
        if t.timestamp < b.timestamp then dateLoop ts rest (some t)
        else dateLoop ts rest acc
    else dateLoop ts rest acc

/-- History get_tag_by_date (src/history.rs lines 239-241): executes
SQL_QUERY_DATE, WHERE timestamp > ? ORDER BY timestamp ASC LIMIT 1.
SQLite leaves the order among equal timestamps unspecified; the model
deterministically returns the first table row holding the minimal
qualifying timestamp. -/
def get_tag_by_date (tags : List TagM) (timestamp : Nat) : Option TagM :=
  dateLoop timestamp tags none

/-- Repository retrieve_history (src/repository.rs lines 117-129): when
the manifest has no history hash the result is HistoryNotFound (both the
has_history guard and the ok_or unwrap produce it); otherwise the
history object is fetched and opened, modelled by the openHist boundary
function returning the rows of its tags table. -/
def retrieve_history (m : ManifestM)
    (openHist : Str → Except CvmfsError (List TagM)) :
    Except CvmfsError (List TagM) :=
  match m.history_database with
  | none => Except.error CvmfsError.HistoryNotFound
  | some h => openHist h

/-- Repository get_tag (src/repository.rs lines 131-138). -/
def repository_get_tag (m : ManifestM)
    (openHist : Str → Except CvmfsError (List TagM)) (number : Nat) :
    Except CvmfsError TagM :=
  match retrieve_history m openHist with
  | Except.error e => Except.error e
  | Except.ok tags =>
    match get_tag_by_revision tags number with
    | none => Except.error CvmfsError.RevisionNotFound
    | some tag => Except.ok tag

/-- Repository get_last_tag (src/repository.rs lines 149-151), the call
Repository::new makes to initialise the current tag: its error makes the
construction fail (src/repository.rs line 50). -/
def get_last_tag (m : ManifestM)
    (openHist : Str → Except CvmfsError (List TagM)) :
    Except CvmfsError TagM :=
  repository_get_tag m openHist m.revision

/-- The loop of Repository retrieve_catalog_for_path (src/repository.rs
lines 205-217): starting from the root hash, follow the nested reference
chosen by find_nested_for_path of the catalog at the current hash until
none is chosen.  The catalog family cats gives each catalog's nested
reference list; fuel bounds the number of iterations, with none meaning
the loop is still running after that many steps. -/
def catalogWalk (cats : Str → List CatalogReference) (needle_path : Str) :
    Nat → Str → Option Str
  | 0, _ => none
  | fuel + 1, hash =>
    match find_nested_for_path (cats hash) needle_path with
    | none => some hash
    | some r => catalogWalk cats needle_path fuel r.catalog_hash

/-- The value usize MAX used as a sentinel index in ChunkedFile read. -/
def USIZE_MAX : Nat := 2 ^ 64 - 1

/-- ChunkedFile (src/common.rs struct ChunkedFile): total size, the
chunk list paired with logical object paths, and the cursor.  The
fetcher is modelled by the fetch oracle passed to read. -/
structure ChunkedFileM where
  size : Nat
  chunks : List (Str × Chunk)
  position : Nat
  deriving DecidableEq, Repr

/-- The io ErrorKind values ChunkedFile read and seek produce. -/
inductive IOErrKind where
  | unsupported
  | notFound
  | notSeekable
  | unexpectedEof
  deriving DecidableEq, Repr

/-- The inner read loop of ChunkedFile read (src/common.rs lines 86-93):
repeatedly read from the opened chunk file into the buffer until the
accumulated count reaches the buffer length or the file is exhausted.
Each successful read returns min(buffer length, bytes left in the file)
and advances the file cursor; fuel bufLen+1 covers all iterations since
every non-final iteration reads at least one byte. -/
def innerReadLoop : Nat → Nat → Nat → Nat → Nat → Nat
  | 0, _, _, _, acc => acc
  | fuel + 1, fileLen, cursor, bufLen, acc =>
    if acc < bufLen then
      let n := min bufLen (fileLen - cursor)
      if n = 0 then acc else innerReadLoop fuel fileLen (cursor + n) bufLen (acc + n)
    else acc

/-- The outer while loop of ChunkedFile read (src/common.rs lines
76-96), with currently_read and index threaded explicitly: while the
buffer is not full and the index is inside the chunk list, fetch the
chunk (failure maps to ErrorKind Unsupported), seek the opened file to
position minus the chunk offset, run the inner read loop, and advance
to the next chunk.  fetch models Fetcher retrieve_file followed by File
open, returning the decompressed chunk bytes.  The index strictly
increases every iteration, so fuel (length of the list) + 1 covers all
iterations. -/
def outerReadLoop (fetch : Str → Option (List Nat))
    (chunks : List (Str × Chunk)) (position bufLen : Nat) :
    Nat → Nat → Nat → Except IOErrKind Nat
  | 0, _, currently_read => Except.ok currently_read
  | fuel + 1, index, currently_read =>
    if currently_read < bufLen ∧ index < chunks.length then
      match chunks[index]? with
      | none => Except.ok currently_read
      | some (path, chunk) =>
        let chunk_position := position - chunk.offset
        match fetch path with
        | none => Except.error IOErrKind.unsupported
        | some fileBytes =>
          let n := innerReadLoop (bufLen + 1) fileBytes.length chunk_position bufLen 0
          outerReadLoop fetch chunks position bufLen fuel (index + 1) (currently_read + n)
    else Except.ok currently_read

/-- ChunkedFile read (src/common.rs lines 66-100): locate the starting
chunk with the position predicate offset greater-or-equal position and
offset + size less than position, defaulting to usize MAX when no chunk
satisfies it, run the outer loop, then advance the cursor by the number
of bytes read. -/
def chunkedRead (fetch : Str → Option (List Nat)) (cf : ChunkedFileM)
    (bufLen : Nat) : Except IOErrKind (Nat × ChunkedFileM) :=
  let index :=
    (cf.chunks.findIdx? (fun pc =>
      decide (pc.2.offset ≥ cf.position) &&
      decide (pc.2.offset + pc.2.size < cf.position))).getD USIZE_MAX
  match outerReadLoop fetch cf.chunks cf.position bufLen
      (cf.chunks.length + 1) index 0 with
  | Except.error e => Except.error e
  | Except.ok n => Except.ok (n, { cf with position := cf.position + n })

/-- Argument of ChunkedFile seek (std io SeekFrom). -/
inductive SeekFromM where
  | start (p : Nat)
  | fromEnd (p : Int)
  | current (p : Int)
  deriving DecidableEq, Repr

/-- ChunkedFile seek (src/common.rs lines 102-115): compute the target
as an i64, fail with UnexpectedEof when negative, otherwise set the
cursor. -/
def chunkedSeek (cf : ChunkedFileM) (pos : SeekFromM) :
    Except IOErrKind (Nat × ChunkedFileM) :=
  let position : Int :=
    match pos with
    | SeekFromM.start p => (p : Int)
    | SeekFromM.fromEnd p => (cf.size : Int) + p
    | SeekFromM.current p => (cf.position : Int) + p
  if position < 0 then Except.error IOErrKind.unexpectedEof
  else Except.ok (position.toNat, { cf with position := position.toNat })

/-- First chunk of the concrete chunked file used to exhibit the read
defect: bytes 0..4. -/
def fixChunk0 : Chunk :=
  { offset := 0, size := 4, content_hash := "c0".toList,
    content_hash_type := ContentHashTypes.Sha1 }

/-- Second chunk of the concrete chunked file: bytes 4..10. -/
def fixChunk1 : Chunk :=
  { offset := 4, size := 6, content_hash := "c1".toList,
    content_hash_type := ContentHashTypes.Sha1 }

/-- Concrete ChunkedFile of size 10 over two contiguous chunks, cursor
at the start. -/
def fixChunkedFile : ChunkedFileM :=
  { size := 10, chunks := [("p0".toList, fixChunk0), ("p1".toList, fixChunk1)],
    position := 0 }

/-- Fetch oracle for the concrete chunked file: both chunk objects are
available with the expected number of bytes. -/
def fixFetch : Str → Option (List Nat) := fun p =>
  if p = "p0".toList then some [1, 2, 3, 4]
  else if p = "p1".toList then some [5, 6, 7, 8, 9, 10]
  else none

/-- Nested reference with an empty root path. -/
def fixEmptyRootRef : CatalogReference :=
  { root_path := [], catalog_hash := "h".toList, catalog_size := 0 }

/-- Nested reference rooted at /a pointing back at catalog hash H. -/
def fixLoopRef : CatalogReference :=
  { root_path := "/a".toList, catalog_hash := "H".toList, catalog_size := 0 }

/-- Catalog family in which every catalog lists the same nested
reference to catalog H at /a. -/
def fixLoopCats : Str → List CatalogReference := fun _ => [fixLoopRef]

/-- Manifest with revision 7 and no history hash. -/
def fixManifestNoHistory : ManifestM := { revision := 7 }

/-- History boundary that would open any history database as empty. -/
def fixOpenHist : Str → Except CvmfsError (List TagM) := fun _ => Except.ok []

/-- Catalog row carrying a content hash blob. -/
def fixRowWithHash : CatalogRow :=
  { md5path_1 := 0, md5path_2 := 0, parent_1 := 0, parent_2 := 0,
    hash := some [171], flags := 4, size := 1, mode := 420, mtime := 0,
    name := "f".toList, symlink := none }

/-- A chunk row for the same path hash as fixRowWithHash. -/
def fixChunkRow : ChunkRow :=
  { md5path_1 := 0, md5path_2 := 0, offset := 0, size := 1, hash := [205] }

/-- Forty hex characters standing for a SHA-1 digest. -/
def fix40 : Str := List.replicate 40 'a'

/-- Hash boundary that digests the concrete body K1 newline to fix40. -/
def fixSha1 : Str → Str := fun s => if s = "K1\n".toList then fix40 else []

/-- Tag at timestamp 10. -/
def fixTag1 : TagM :=
  { name := "t1".toList, hash := "h1".toList, revision := 1,
    timestamp := 10, channel := 0, description := [] }

/-- Tag at timestamp 5. -/
def fixTag2 : TagM :=
  { name := "t2".toList, hash := "h2".toList, revision := 2,
    timestamp := 5, channel := 0, description := [] }

/-- Concrete two-row tags table. -/
def fixTags : List TagM := [fixTag1, fixTag2]

/-- C1: the claim says reading the byte range [0, size) of a chunked
file yields the concatenation of the chunk contents.  On the concrete
two-chunk file of size 10 the Read implementation returns Ok(0) and
leaves the cursor in place, because the chunk-locator predicate
(offset greater-or-equal position and offset + size below position) is
unsatisfiable, so the start index falls back to usize MAX and the copy
loop never runs: no read can ever produce a byte, let alone the ten
concatenated ones. -/
theorem claim_C1_chunked_read_zero :
    chunkedRead fixFetch fixChunkedFile 10 = Except.ok (0, fixChunkedFile) ∧
    (0 : Nat) ≠ fixChunkedFile.size := by
  exact ⟨rfl, by decide⟩

/-- C3: every CvmfsError crossing the From conversion to an errno maps
to ENOSYS, whatever its variant; in particular an error propagating out
of the lookup inside getattr reaches the mount layer as ENOSYS. -/
theorem claim_C3_errno_always_enosys :
    ∀ (tsValid : Int → Bool) (e : CvmfsError),
      cvmfsErrorToI32 e = enosysErrno ∧
      getattrModel tsValid (Except.error e) = Except.error enosysErrno := by
  intro tsValid e
  exact ⟨rfl, rfl⟩

/-- C3 counterexample: the claim says a FileNotFound from a path lookup
reaches the mount layer as ENOENT; the conversion actually produces
ENOSYS, which differs from ENOENT. -/
theorem claim_C3_counterexample :
    cvmfsErrorToI32 CvmfsError.FileNotFound = enosysErrno ∧
    enosysErrno ≠ enoentErrno ∧
    getattrModel (fun _ => true) (Except.error CvmfsError.FileNotFound) =
      Except.error enosysErrno := by
  exact ⟨rfl, by decide, rfl⟩

/-- C6 (amended): the boolean keys G and A accept exactly the literals
yes and no; every other value makes Manifest construction panic in
parse_boolean rather than return an error to the caller. -/
theorem claim_C6_boolean_strict :
    ∀ (tsValid : Int → Bool) (m : ManifestM) (v : Str),
      v ≠ "yes".toList → v ≠ "no".toList →
      manifestLine tsValid m ('G' :: v) = MOutcome.panics ∧
      manifestLine tsValid m ('A' :: v) = MOutcome.panics ∧
      manifestLine tsValid m ('G' :: "yes".toList) =
        MOutcome.ok { m with garbage_collectable := true } ∧
      manifestLine tsValid m ('A' :: "no".toList) =
        MOutcome.ok { m with allows_alternative_name := false } := by
  intro tsValid m v h1 h2
  have hpb : parse_boolean v = none := by
    unfold parse_boolean
    rw [if_neg h1, if_neg h2]
  refine ⟨?_, ?_, rfl, rfl⟩ <;> simp [manifestLine, hpb]

/-- C6 witness: the amended statement applied at the literal maybe. -/
theorem claim_C6_witness :
    manifestLine (fun _ => true) {} ('G' :: "maybe".toList) = MOutcome.panics :=
  (claim_C6_boolean_strict (fun _ => true) {} "maybe".toList
    (by decide) (by decide)).1

/-- C6 counterexample: on the manifest line G maybe the constructor
panics; it does not return the parse error the claim promises. -/
theorem claim_C6_counterexample :
    manifestNew (fun _ => true) ["Gmaybe".toList] = MOutcome.panics ∧
    MOutcome.panics ≠ MOutcome.fails CvmfsError.ParseError := by
  decide

/-- C7 counterexample: a catalog row that carries a content hash while
chunk rows exist for its path yields an entry with content_hash Some
and a non-empty chunk list, violating the claimed invariant. -/
theorem claim_C7_counterexample :
    (make_directory_entry fixRowWithHash [fixChunkRow]).content_hash.isSome = true ∧
    (make_directory_entry fixRowWithHash [fixChunkRow]).chunks ≠ [] := by
  decide

/-- C7 (amended): for every row and chunk-row list related by the
chunked-file convention of the catalog schema (the hash blob is NULL
exactly when chunk rows exist for the path), the produced entry has
content_hash Some iff its chunk list is empty. -/
theorem claim_C7_hash_iff_no_chunks :
    ∀ (row : CatalogRow) (chunkRows : List ChunkRow),
      (row.hash = none ↔ chunkRows ≠ []) →
      ((make_directory_entry row chunkRows).content_hash.isSome = true ↔
        (make_directory_entry row chunkRows).chunks = []) := by
  intro row rows h
  simp only [make_directory_entry, add_chunks, directory_entry_new,
    Option.isSome_map, List.map_eq_nil_iff]
  cases hr : row.hash <;> rw [hr] at h <;> cases rows <;> simp_all

/-- C7 witness: the amended statement applied at a hashed row with no
chunk rows. -/
theorem claim_C7_witness :
    (make_directory_entry fixRowWithHash []).content_hash.isSome = true ↔
    (make_directory_entry fixRowWithHash []).chunks = [] :=
  claim_C7_hash_iff_no_chunks fixRowWithHash [] (by decide)

/-- C4 counterexample: with no history hash in the manifest, the
get_last_tag call made by Repository construction fails with
HistoryNotFound, so construction does not succeed and no tag is
synthesized from manifest fields. -/
theorem claim_C4_counterexample :
    get_last_tag fixManifestNoHistory fixOpenHist =
      Except.error CvmfsError.HistoryNotFound := by
  rfl

/-- C4 (amended): Repository construction resolves its current tag with
get_last_tag; when the manifest carries no history hash this fails with
HistoryNotFound (construction fails), and only when a history hash is
present is the tag resolved by get_tag_by_revision over the opened
history at revision manifest.revision, with RevisionNotFound when the
revision is absent. -/
theorem claim_C4_tag_resolution :
    ∀ (m : ManifestM) (openHist : Str → Except CvmfsError (List TagM)),
      (m.history_database = none →
        get_last_tag m openHist = Except.error CvmfsError.HistoryNotFound) ∧
      (∀ h tags, m.history_database = some h → openHist h = Except.ok tags →
        get_last_tag m openHist =
          match get_tag_by_revision tags m.revision with
          | none => Except.error CvmfsError.RevisionNotFound
          | some tag => Except.ok tag) := by
  intro m openHist
  constructor
  · intro hnone
    simp [get_last_tag, repository_get_tag, retrieve_history, hnone]
  · intro h tags hsome hopen
    simp [get_last_tag, repository_get_tag, retrieve_history, hsome, hopen]

/-- C4 witness: the amended statement applied to the concrete manifest
without history hash. -/
theorem claim_C4_witness :
    get_last_tag fixManifestNoHistory fixOpenHist =
      Except.error CvmfsError.HistoryNotFound :=
  (claim_C4_tag_resolution fixManifestNoHistory fixOpenHist).1 (by decide)

/-- Once the date fold holds a candidate it never returns none. -/
theorem dateLoop_some_ne_none (ts : Nat) :
    ∀ (tags : List TagM) (b : TagM), dateLoop ts tags (some b) ≠ none := by
  intro tags
  induction tags with
  | nil => intro b h; exact Option.noConfusion h
  | cons t rest ih =>
    intro b
    unfold dateLoop
    by_cases hts : ts < t.timestamp
    · simp only [if_pos hts]
      by_cases hlt : t.timestamp < b.timestamp
      · simp only [if_pos hlt]; exact ih t
      · simp only [if_neg hlt]; exact ih b
    · simp only [if_neg hts]; exact ih b

/-- The date fold starting empty returns none exactly when no row
qualifies. -/
theorem dateLoop_none_iff (ts : Nat) :
    ∀ tags : List TagM,
      (dateLoop ts tags none = none ↔ ∀ t ∈ tags, t.timestamp ≤ ts) := by
  intro tags
  induction tags with
  | nil => simp [dateLoop]
  | cons t rest ih =>
    unfold dateLoop
    by_cases hts : ts < t.timestamp
    · simp only [if_pos hts]
      constructor
      · intro h; exact absurd h (dateLoop_some_ne_none ts rest t)
      · intro h; exact absurd hts (Nat.not_lt.mpr (h t (List.mem_cons_self t rest)))
    · simp only [if_neg hts]
      rw [ih]
      constructor
      · intro h q hq
        rcases List.mem_cons.mp hq with rfl | hq2
        · exact Nat.not_lt.mp hts
        · exact h q hq2
      · intro h q hq; exact h q (List.mem_cons_of_mem t hq)

/-- Unfolding equation of the date fold at an empty candidate. -/
theorem dateLoop_cons_none (ts : Nat) (t : TagM) (rest : List TagM) :
    dateLoop ts (t :: rest) none =
      if ts < t.timestamp then dateLoop ts rest (some t)
      else dateLoop ts rest none := rfl

/-- Unfolding equation of the date fold at a held candidate. -/
theorem dateLoop_cons_some (ts : Nat) (t b : TagM) (rest : List TagM) :
    dateLoop ts (t :: rest) (some b) =
      if ts < t.timestamp then
        (if t.timestamp < b.timestamp then dateLoop ts rest (some t)
         else dateLoop ts rest (some b))
      else dateLoop ts rest (some b) := rfl

/-- Full description of a successful date fold: the result is the held
candidate or a qualifying row, it beats the held candidate, and it
beats every qualifying row of the table. -/
theorem dateLoop_some_spec (ts : Nat) :
    ∀ (tags : List TagM) (acc : Option TagM) (r : TagM),
      dateLoop ts tags acc = some r →
      (∀ b, acc = some b → ts < b.timestamp) →
      ((some r = acc ∨ (r ∈ tags ∧ ts < r.timestamp)) ∧
        (∀ b, acc = some b → r.timestamp ≤ b.timestamp) ∧
        (∀ q ∈ tags, ts < q.timestamp → r.timestamp ≤ q.timestamp)) := by
  intro tags
  induction tags with
  | nil =>
    intro acc r h hacc
    simp only [dateLoop] at h
    refine ⟨Or.inl h.symm, ?_, ?_⟩
    · intro b hb
      rw [hb] at h
      cases h
      exact Nat.le_refl _
    · intro q hq
      exact absurd hq (List.not_mem_nil q)
  | cons t rest ih =>
    intro acc r h hacc
    cases acc with
    | none =>
      rw [dateLoop_cons_none] at h
      by_cases hts : ts < t.timestamp
      · rw [if_pos hts] at h
        have spec := ih (some t) r h (fun b hb => by cases hb; exact hts)
        refine ⟨?_, ?_, ?_⟩
        · rcases spec.1 with heq | hmem
          · cases heq
            exact Or.inr ⟨List.mem_cons_self t rest, hts⟩
          · exact Or.inr ⟨List.mem_cons_of_mem t hmem.1, hmem.2⟩
        · intro b hb
          exact Option.noConfusion hb
        · intro q hq hqts
          rcases List.mem_cons.mp hq with rfl | hq2
          · exact spec.2.1 q rfl
          · exact spec.2.2 q hq2 hqts
      · rw [if_neg hts] at h
        have spec := ih none r h (fun b hb => Option.noConfusion hb)
        refine ⟨?_, ?_, ?_⟩
        · rcases spec.1 with heq | hmem
          · exact Or.inl heq
          · exact Or.inr ⟨List.mem_cons_of_mem t hmem.1, hmem.2⟩
        · intro b hb
          exact Option.noConfusion hb
        · intro q hq hqts
          rcases List.mem_cons.mp hq with rfl | hq2
          · exact absurd hqts hts
          · exact spec.2.2 q hq2 hqts
    | some b =>
      have hbts : ts < b.timestamp := hacc b rfl
      rw [dateLoop_cons_some] at h
      by_cases hts : ts < t.timestamp
      · rw [if_pos hts] at h
        by_cases hlt : t.timestamp < b.timestamp
        · rw [if_pos hlt] at h
          have spec := ih (some t) r h (fun x hx => by cases hx; exact hts)
          refine ⟨?_, ?_, ?_⟩
          · rcases spec.1 with heq | hmem
            · cases heq
              exact Or.inr ⟨List.mem_cons_self t rest, hts⟩
            · exact Or.inr ⟨List.mem_cons_of_mem t hmem.1, hmem.2⟩
          · intro x hx
            cases hx
            exact Nat.le_trans (spec.2.1 t rfl) (Nat.le_of_lt hlt)
          · intro q hq hqts
            rcases List.mem_cons.mp hq with rfl | hq2
            · exact spec.2.1 q rfl
            · exact spec.2.2 q hq2 hqts
        · rw [if_neg hlt] at h
          have spec := ih (some b) r h (fun x hx => by cases hx; exact hbts)
          refine ⟨?_, ?_, ?_⟩
          · rcases spec.1 with heq | hmem
            · exact Or.inl heq
            · exact Or.inr ⟨List.mem_cons_of_mem t hmem.1, hmem.2⟩
          · intro x hx
            cases hx
            exact spec.2.1 b rfl
          · intro q hq hqts
            rcases List.mem_cons.mp hq with rfl | hq2
            · exact Nat.le_trans (spec.2.1 b rfl) (Nat.not_lt.mp hlt)
            · exact spec.2.2 q hq2 hqts
      · rw [if_neg hts] at h
        have spec := ih (some b) r h (fun x hx => by cases hx; exact hbts)
        refine ⟨?_, ?_, ?_⟩
        · rcases spec.1 with heq | hmem
          · exact Or.inl heq
          · exact Or.inr ⟨List.mem_cons_of_mem t hmem.1, hmem.2⟩
        · intro x hx
          cases hx
          exact spec.2.1 b rfl
        · intro q hq hqts
          rcases List.mem_cons.mp hq with rfl | hq2
          · exact absurd hqts hts
          · exact spec.2.2 q hq2 hqts

/-- C9: get_tag_by_date returns none exactly when no tag has a
timestamp strictly above the bound, and otherwise returns a table row
whose timestamp is strictly above the bound and minimal among all
qualifying rows. -/
theorem claim_C9_by_date_strict :
    ∀ (tags : List TagM) (ts : Nat),
      (get_tag_by_date tags ts = none ↔ ∀ t ∈ tags, t.timestamp ≤ ts) ∧
      (∀ r, get_tag_by_date tags ts = some r →
        r ∈ tags ∧ ts < r.timestamp ∧
        ∀ q ∈ tags, ts < q.timestamp → r.timestamp ≤ q.timestamp) := by
  intro tags ts
  constructor
  · exact dateLoop_none_iff ts tags
  · intro r h
    have spec := dateLoop_some_spec ts tags none r h
      (by intro b hb; exact Option.noConfusion hb)
    rcases spec.1 with heq | hmem
    · exact Option.noConfusion heq
    · exact ⟨hmem.1, hmem.2, spec.2.2⟩

/-- C9 witness: on the concrete table the returned tag is the row with
the least timestamp above 3, with its minimality instantiated by the
theorem. -/
theorem claim_C9_witness :
    fixTag2 ∈ fixTags ∧ 3 < fixTag2.timestamp ∧
    ∀ q ∈ fixTags, 3 < q.timestamp → fixTag2.timestamp ≤ q.timestamp :=
  (claim_C9_by_date_strict fixTags 3).2 fixTag2 (by decide)

/-- Unfolding equation of the find_nested_for_path loop. -/
theorem findNestedLoop_cons (needle : Str) (r : CatalogReference)
    (rest : List CatalogReference) (score : Nat) (best : Option CatalogReference) :
    findNestedLoop needle (r :: rest) score best =
      if startsWithPath (canonicalize_path needle) r.root_path &&
          decide (score < r.root_path.length) && path_sanitized needle r.root_path then
        findNestedLoop needle rest r.root_path.length (some r)
      else findNestedLoop needle rest score best := rfl

/-- The loop condition at threshold score holds exactly when the
reference matches and its root path is longer than the score. -/
theorem nestedCond_iff (needle : Str) (r : CatalogReference) (score : Nat) :
    ((startsWithPath (canonicalize_path needle) r.root_path &&
        decide (score < r.root_path.length) && path_sanitized needle r.root_path) = true) ↔
      (startsWithPath (canonicalize_path needle) r.root_path = true ∧
        score < r.root_path.length ∧ path_sanitized needle r.root_path = true) := by
  simp only [Bool.and_eq_true, decide_eq_true_eq]
  tauto

/-- Once the loop holds a best match it never returns none. -/
theorem findNestedLoop_some_ne_none (needle : Str) :
    ∀ (refs : List CatalogReference) (score : Nat) (b : CatalogReference),
      findNestedLoop needle refs score (some b) ≠ none := by
  intro refs
  induction refs with
  | nil => intro score b h; exact Option.noConfusion h
  | cons r rest ih =>
    intro score b
    rw [findNestedLoop_cons]
    by_cases hc : (startsWithPath (canonicalize_path needle) r.root_path &&
        decide (score < r.root_path.length) && path_sanitized needle r.root_path) = true
    · rw [if_pos hc]; exact ih _ _
    · rw [if_neg hc]; exact ih _ _

/-- The loop result never drops below the entry threshold, and is the
held best or a matching reference of the remaining list. -/
theorem findNestedLoop_le (needle : Str) :
    ∀ (refs : List CatalogReference) (score : Nat) (best : Option CatalogReference)
      (r : CatalogReference),
      (∀ b, best = some b → b.root_path.length = score) →
      findNestedLoop needle refs score best = some r →
      score ≤ r.root_path.length ∧
        (best = some r ∨ (r ∈ refs ∧ nestedMatch needle r)) := by
  intro refs
  induction refs with
  | nil =>
    intro score best r hbest h
    simp only [findNestedLoop] at h
    exact ⟨Nat.le_of_eq (hbest r h).symm, Or.inl h⟩
  | cons q rest ih =>
    intro score best r hbest h
    rw [findNestedLoop_cons] at h
    by_cases hc : (startsWithPath (canonicalize_path needle) q.root_path &&
        decide (score < q.root_path.length) && path_sanitized needle q.root_path) = true
    · rw [if_pos hc] at h
      have hc2 := (nestedCond_iff needle q score).mp hc
      have spec := ih q.root_path.length (some q) r
        (fun b hb => by cases hb; rfl) h
      refine ⟨Nat.le_trans (Nat.le_of_lt hc2.2.1) spec.1, ?_⟩
      rcases spec.2 with heq | hmem
      · cases heq
        exact Or.inr ⟨List.mem_cons_self q rest,
          hc2.1, Nat.lt_of_le_of_lt (Nat.zero_le score) hc2.2.1, hc2.2.2⟩
      · exact Or.inr ⟨List.mem_cons_of_mem q hmem.1, hmem.2⟩
    · rw [if_neg hc] at h
      have spec := ih score best r hbest h
      refine ⟨spec.1, ?_⟩
      rcases spec.2 with heq | hmem
      · exact Or.inl heq
      · exact Or.inr ⟨List.mem_cons_of_mem q hmem.1, hmem.2⟩

/-- The loop result dominates the root-path length of every matching
reference of the list it still has to process. -/
theorem findNestedLoop_best (needle : Str) :
    ∀ (refs : List CatalogReference) (score : Nat) (best : Option CatalogReference)
      (r : CatalogReference),
      (∀ b, best = some b → b.root_path.length = score) →
      findNestedLoop needle refs score best = some r →
      ∀ q ∈ refs, nestedMatch needle q → q.root_path.length ≤ r.root_path.length := by
  intro refs
  induction refs with
  | nil =>
    intro score best r _ _ q hq
    exact absurd hq (List.not_mem_nil q)
  | cons q0 rest ih =>
    intro score best r hbest h q hq hmatch
    rw [findNestedLoop_cons] at h
    by_cases hc : (startsWithPath (canonicalize_path needle) q0.root_path &&
        decide (score < q0.root_path.length) && path_sanitized needle q0.root_path) = true
    · rw [if_pos hc] at h
      have hbest2 : ∀ b, (some q0 : Option CatalogReference) = some b →
          b.root_path.length = q0.root_path.length := fun b hb => by cases hb; rfl
      rcases List.mem_cons.mp hq with rfl | hq2
      · exact (findNestedLoop_le needle rest q.root_path.length (some q) r hbest2 h).1
      · exact ih q0.root_path.length (some q0) r hbest2 h q hq2 hmatch
    · rw [if_neg hc] at h
      rcases List.mem_cons.mp hq with rfl | hq2
      · have hscore : ¬ score < q.root_path.length := by
          intro hlt
          exact hc ((nestedCond_iff needle q score).mpr ⟨hmatch.1, hlt, hmatch.2.2⟩)
        have := (findNestedLoop_le needle rest score best r hbest h).1
        exact Nat.le_trans (Nat.not_lt.mp hscore) this
      · exact ih score best r hbest h q hq2 hmatch

/-- The loop starting from the empty best returns none exactly when no
reference matches. -/
theorem findNestedLoop_none_iff (needle : Str) :
    ∀ refs : List CatalogReference,
      (findNestedLoop needle refs 0 none = none ↔
        ∀ r ∈ refs, ¬ nestedMatch needle r) := by
  intro refs
  induction refs with
  | nil => simp [findNestedLoop]
  | cons r rest ih =>
    rw [findNestedLoop_cons]
    by_cases hc : (startsWithPath (canonicalize_path needle) r.root_path &&
        decide (0 < r.root_path.length) && path_sanitized needle r.root_path) = true
    · rw [if_pos hc]
      have hc2 := (nestedCond_iff needle r 0).mp hc
      constructor
      · intro h
        exact absurd h (findNestedLoop_some_ne_none needle rest r.root_path.length r)
      · intro h
        exact absurd ⟨hc2.1, hc2.2.1, hc2.2.2⟩ (h r (List.mem_cons_self r rest))
    · rw [if_neg hc]
      rw [ih]
      constructor
      · intro h q hq
        rcases List.mem_cons.mp hq with rfl | hq2
        · intro hmatch
          exact hc ((nestedCond_iff needle q 0).mpr ⟨hmatch.1, hmatch.2.1, hmatch.2.2⟩)
        · exact h q hq2
      · intro h q hq
        exact h q (List.mem_cons_of_mem r hq)

/-- C2 (amended): find_nested_for_path returns none exactly when no
nested reference has a nonempty root path that is a component-wise
path prefix of the query path and sanitised; otherwise it returns a
listed reference satisfying that condition whose root-path length
dominates every other satisfying reference, so in particular a nested
catalog at /foobar is never chosen for a query below /foo. -/
theorem claim_C2_find_nested_spec :
    ∀ (refs : List CatalogReference) (needle : Str),
      (find_nested_for_path refs needle = none ↔
        ∀ r ∈ refs, ¬ nestedMatch needle r) ∧
      (∀ r, find_nested_for_path refs needle = some r →
        r ∈ refs ∧ nestedMatch needle r ∧
        ∀ q ∈ refs, nestedMatch needle q →
          q.root_path.length ≤ r.root_path.length) := by
  intro refs needle
  constructor
  · exact findNestedLoop_none_iff needle refs
  · intro r h
    have hbest : ∀ b, (none : Option CatalogReference) = some b →
        b.root_path.length = 0 := fun b hb => Option.noConfusion hb
    have hle := findNestedLoop_le needle refs 0 none r hbest h
    rcases hle.2 with heq | hmem
    · exact Option.noConfusion heq
    · exact ⟨hmem.1, hmem.2, findNestedLoop_best needle refs 0 none r hbest h⟩

/-- C2 witness: the amended statement instantiated on a catalog with a
single nested reference at /a and the query path /a/b. -/
theorem claim_C2_witness :
    fixLoopRef ∈ [fixLoopRef] ∧ nestedMatch "/a/b".toList fixLoopRef ∧
    ∀ q ∈ [fixLoopRef], nestedMatch "/a/b".toList q →
      q.root_path.length ≤ fixLoopRef.root_path.length :=
  (claim_C2_find_nested_spec [fixLoopRef] "/a/b".toList).2 fixLoopRef (by decide)

/-- C2 counterexample: for the query path /x and a single nested
reference whose root path is the empty string, the empty root path is a
string prefix of the query and sanitised (the character of the query at
position zero is a slash), so the claim says the reference is chosen;
the code returns none, because the loop requires a root path strictly
longer than the initial best score of zero. -/
theorem claim_C2_counterexample :
    find_nested_for_path [fixEmptyRootRef] "/x".toList = none ∧
    List.isPrefixOf fixEmptyRootRef.root_path "/x".toList = true ∧
    path_sanitized "/x".toList fixEmptyRootRef.root_path = true := by
  decide

/-- A sanitised catalog path is never longer than the query path. -/
theorem path_sanitized_length_le (needle catalog : Str) :
    path_sanitized needle catalog = true → catalog.length ≤ needle.length := by
  intro h
  unfold path_sanitized at h
  simp only [Bool.or_eq_true, Bool.and_eq_true, beq_iff_eq, decide_eq_true_eq] at h
  rcases h with heq | ⟨hlt, _⟩
  · omega
  · omega

/-- A reference returned by find_nested_for_path satisfies the match
condition (nonempty sanitised component-prefix root path). -/
theorem find_nested_some_match (refs : List CatalogReference) (needle : Str)
    (r : CatalogReference) (h : find_nested_for_path refs needle = some r) :
    nestedMatch needle r := by
  have hbest : ∀ b, (none : Option CatalogReference) = some b →
      b.root_path.length = 0 := fun b hb => Option.noConfusion hb
  rcases (findNestedLoop_le needle refs 0 none r hbest h).2 with heq | hmem
  · exact Option.noConfusion heq
  · exact hmem.2

/-- Unfolding equation of the catalog walk at positive fuel. -/
theorem catalogWalk_succ (cats : Str → List CatalogReference) (needle : Str)
    (fuel : Nat) (hash : Str) :
    catalogWalk cats needle (fuel + 1) hash =
      match find_nested_for_path (cats hash) needle with
      | none => some hash
      | some r => catalogWalk cats needle fuel r.catalog_hash := rfl

/-- Fuel bound for the catalog walk: if every reference selected from
the catalog at the current hash is strictly longer than the lower bound
lb, consecutive selections strictly increase the matched length, and
the fuel dominates the remaining slack, then the walk stops. -/
theorem catalogWalk_term (cats : Str → List CatalogReference) (needle : Str)
    (hinc : ∀ h r r2, find_nested_for_path (cats h) needle = some r →
      find_nested_for_path (cats r.catalog_hash) needle = some r2 →
      r.root_path.length < r2.root_path.length) :
    ∀ (fuel lb : Nat) (hash : Str),
      (∀ r, find_nested_for_path (cats hash) needle = some r →
        lb < r.root_path.length) →
      lb ≤ needle.length → needle.length + 2 ≤ fuel + lb →
      (catalogWalk cats needle fuel hash).isSome = true := by
  intro fuel
  induction fuel with
  | zero =>
    intro lb hash _ hle hfuel
    omega
  | succ fuel ih =>
    intro lb hash hnext hle hfuel
    rw [catalogWalk_succ]
    cases hf : find_nested_for_path (cats hash) needle with
    | none => rfl
    | some r =>
      have hm : nestedMatch needle r := find_nested_some_match _ _ _ hf
      have hrle : r.root_path.length ≤ needle.length :=
        path_sanitized_length_le needle r.root_path hm.2.2
      have hlb : lb < r.root_path.length := hnext r hf
      exact ih r.root_path.length r.catalog_hash
        (fun r2 h2 => hinc hash r r2 hf h2) hrle (by omega)

/-- C8 (amended): the loop of retrieve_catalog_for_path stops within
length-of-path plus two iterations for every catalog family in which
each selected nested reference strictly lengthens the matched root
path at the next catalog; without that assumption it can run forever
(see the counterexample). -/
theorem claim_C8_walk_terminates :
    ∀ (cats : Str → List CatalogReference) (needle root : Str),
      (∀ h r r2, find_nested_for_path (cats h) needle = some r →
        find_nested_for_path (cats r.catalog_hash) needle = some r2 →
        r.root_path.length < r2.root_path.length) →
      (catalogWalk cats needle (needle.length + 2) root).isSome = true := by
  intro cats needle root hinc
  apply catalogWalk_term cats needle hinc (needle.length + 2) 0 root
  · intro r hf
    exact (find_nested_some_match _ _ _ hf).2.1
  · exact Nat.zero_le _
  · omega

/-- C8 witness: the amended statement applied to the family without any
nested references. -/
theorem claim_C8_witness :
    (catalogWalk (fun _ => []) "/a".toList ("/a".toList.length + 2)
      "h".toList).isSome = true := by
  apply claim_C8_walk_terminates (fun _ => []) "/a".toList "h".toList
  intro h r r2 h1 h2
  simp [find_nested_for_path, findNestedLoop] at h1

/-- In the self-referencing family every walk step selects the same
reference again, so no amount of fuel makes the loop stop. -/
theorem catalogWalk_loop_forever :
    ∀ n, catalogWalk fixLoopCats "/a/b".toList n "H".toList = none := by
  intro n
  induction n with
  | zero => rfl
  | succ n ih =>
    rw [catalogWalk_succ]
    have hf : find_nested_for_path (fixLoopCats "H".toList) "/a/b".toList =
        some fixLoopRef := by decide
    rw [hf]
    exact ih

/-- C8 counterexample: for the family in which every catalog lists a
nested reference at /a pointing back to catalog H, the walk for query
/a/b never stops, refuting the claim that the loop terminates for every
family of catalogs. -/
theorem claim_C8_counterexample :
    ¬ ∃ n, (catalogWalk fixLoopCats "/a/b".toList n "H".toList).isSome = true := by
  rintro ⟨n, h⟩
  rw [catalogWalk_loop_forever n] at h
  exact Bool.noConfusion h

/-- Unfolding equation of the read-line splitter. -/
theorem lineSplit_cons (c : Char) (rest : Str) :
    lineSplit (c :: rest) =
      if c = '\n' then ['\n'] :: lineSplit rest
      else
        match lineSplit rest with
        | [] => [[c]]
        | g :: gs => (c :: g) :: gs := rfl

/-- A non-empty byte stream yields at least one line. -/
theorem lineSplit_ne_nil (s : Str) (h : s ≠ []) : lineSplit s ≠ [] := by
  cases s with
  | nil => exact absurd rfl h
  | cons c rest =>
    rw [lineSplit_cons]
    by_cases hc : c = '\n'
    · rw [if_pos hc]; exact List.cons_ne_nil _ _
    · rw [if_neg hc]
      cases lineSplit rest with
      | nil => exact List.cons_ne_nil _ _
      | cons g gs => exact List.cons_ne_nil _ _

/-- The lines of a stream concatenate back to the stream. -/
theorem lineSplit_flatten : ∀ s : Str, (lineSplit s).flatten = s := by
  intro s
  induction s with
  | nil => rfl
  | cons c rest ih =>
    rw [lineSplit_cons]
    by_cases hc : c = '\n'
    · rw [if_pos hc, hc, List.flatten_cons, List.singleton_append, ih]
    · rw [if_neg hc]
      cases hsp : lineSplit rest with
      | nil =>
        have : rest = [] := by
          by_contra hne
          exact lineSplit_ne_nil rest hne hsp
        simp [this]
      | cons g gs =>
        rw [hsp] at ih
        rw [List.flatten_cons] at ih ⊢
        rw [List.cons_append, ih]

/-- Splitting distributes over append when the first stream is empty or
newline-terminated (each of its lines closes before the junction). -/
theorem lineSplit_append :
    ∀ (B rest : Str), (B = [] ∨ B.getLast? = some '\n') →
      lineSplit (B ++ rest) = lineSplit B ++ lineSplit rest := by
  intro B
  induction B with
  | nil => intro rest _; rfl
  | cons c B2 ih =>
    intro rest hB
    have hlast : (c :: B2).getLast? = some '\n' := by
      rcases hB with h | h
      · exact absurd h (List.cons_ne_nil c B2)
      · exact h
    by_cases hB2 : B2 = []
    · subst hB2
      have hc : c = '\n' := by simpa using hlast
      subst hc
      rfl
    · obtain ⟨d, B3, rfl⟩ := List.exists_cons_of_ne_nil hB2
      have hlast2 : (d :: B3).getLast? = some '\n' := by
        simpa [List.getLast?_cons_cons] using hlast
      have ih2 := ih rest (Or.inr hlast2)
      by_cases hc : c = '\n'
      · subst hc
        have hr : lineSplit ('\n' :: d :: B3) = ['\n'] :: lineSplit (d :: B3) := by
          rw [lineSplit_cons, if_pos rfl]
        rw [List.cons_append, lineSplit_cons, if_pos rfl, ih2, hr]
        rfl
      · have hr : lineSplit (c :: d :: B3) =
            match lineSplit (d :: B3) with
            | [] => [[c]]
            | g :: gs => (c :: g) :: gs := by
          rw [lineSplit_cons, if_neg hc]
        rw [List.cons_append, lineSplit_cons, if_neg hc, ih2, hr]
        cases hsp : lineSplit (d :: B3) with
        | nil => exact absurd hsp (lineSplit_ne_nil (d :: B3) (List.cons_ne_nil d B3))
        | cons g gs => rfl

/-- Unfolding equation of the root-file read loop. -/
theorem rfLoop_cons (line : Str) (rest : List Str) (contents : Str) :
    rfLoop (line :: rest) contents =
      if line.length < 2 then RFLoopResult.panics
      else if line.take 2 = ['-', '-'] then
        match rest with
        | [] => RFLoopResult.fails (CvmfsError.ioError ioLenMsg)
        | c :: _ =>
          if c.length ≠ 41 then RFLoopResult.fails (CvmfsError.ioError ioLenMsg)
          else RFLoopResult.done (some (c.take 40)) contents
      else rfLoop rest (contents ++ line) := rfl

/-- Well-formed body lines (at least two bytes, not starting with the
terminator) are accumulated verbatim by the read loop. -/
theorem rfLoop_body :
    ∀ (lines rest : List Str) (contents : Str),
      (∀ l ∈ lines, 2 ≤ l.length ∧ l.take 2 ≠ ['-', '-']) →
      rfLoop (lines ++ rest) contents = rfLoop rest (contents ++ lines.flatten) := by
  intro lines
  induction lines with
  | nil => intro rest contents _; simp
  | cons l ls ih =>
    intro rest contents h
    have hl := h l (List.mem_cons_self l ls)
    rw [List.cons_append, rfLoop_cons, if_neg (by omega), if_neg hl.2]
    rw [ih rest (contents ++ l) (fun x hx => h x (List.mem_cons_of_mem l hx))]
    rw [List.flatten_cons, List.append_assoc]

/-- When the read loop ends with a stored checksum, RootFile new reduces
to the signature comparison. -/
theorem root_file_new_done (sha1hex : Str → Str) (file : Str) (c contents : Str)
    (h : rfLoop (lineSplit file) [] = RFLoopResult.done (some c) contents) :
    root_file_new sha1hex file =
      if sha1hex contents ≠ c then RFOutcome.fails CvmfsError.InvalidRootFileSignature
      else RFOutcome.ok ⟨some c, contents⟩ := by
  unfold root_file_new
  rw [h]

/-- The splitter sends a single character to one single-character line. -/
theorem lineSplit_single (c : Char) : lineSplit [c] = [[c]] := by
  rw [lineSplit_cons]
  by_cases hcn : c = '\n'
  · subst hcn; rfl
  · rw [if_neg hcn]; rfl

/-- C5 (amended): a root file consisting of well-formed body bytes B
(each line at least two bytes and not beginning with the terminator,
newline-terminated), the terminator line, and a 41-byte checksum line C
parses successfully exactly when the hex SHA-1 of B equals the stated
40-character checksum, and fails with InvalidRootFileSignature on a
mismatch.  (A checksum line whose length differs from 41 produces the
IO error shown in the counterexample, not IncompleteRootFileSignature.) -/
theorem claim_C5_signature_verification :
    ∀ (sha1hex : Str → Str) (B C : Str),
      (∀ l ∈ lineSplit B, 2 ≤ l.length ∧ l.take 2 ≠ ['-', '-']) →
      (B = [] ∨ B.getLast? = some '\n') →
      C.length = 41 →
      lineSplit C = [C] →
      root_file_new sha1hex (B ++ "--\n".toList ++ C) =
        if sha1hex B = C.take 40 then RFOutcome.ok ⟨some (C.take 40), B⟩
        else RFOutcome.fails CvmfsError.InvalidRootFileSignature := by
  intro sha1hex B C hbody hB hlen hCone
  have hsplit : lineSplit (B ++ "--\n".toList ++ C)
      = lineSplit B ++ ("--\n".toList :: lineSplit C) := by
    rw [List.append_assoc, lineSplit_append B _ hB,
      lineSplit_append "--\n".toList C (Or.inr (by decide))]
    rfl
  have hloop : rfLoop (lineSplit (B ++ "--\n".toList ++ C)) [] =
      RFLoopResult.done (some (C.take 40)) B := by
    rw [hsplit, rfLoop_body (lineSplit B) _ [] hbody, lineSplit_flatten, hCone,
      rfLoop_cons, if_neg (by decide), if_pos (by decide)]
    show (if C.length ≠ 41 then RFLoopResult.fails (CvmfsError.ioError ioLenMsg)
      else RFLoopResult.done (some (C.take 40)) ([] ++ B)) =
      RFLoopResult.done (some (C.take 40)) B
    rw [if_neg (by omega), List.nil_append]
  rw [root_file_new_done sha1hex _ (C.take 40) B hloop]
  by_cases hsig : sha1hex B = C.take 40
  · rw [if_neg (not_not_intro hsig), if_pos hsig]
  · rw [if_pos hsig, if_neg hsig]

/-- C5 witness: the amended statement applied to a concrete body whose
digest matches the stated checksum. -/
theorem claim_C5_witness :
    root_file_new fixSha1 ("K1\n".toList ++ "--\n".toList ++ (fix40 ++ ['\n'])) =
      RFOutcome.ok ⟨some fix40, "K1\n".toList⟩ := by
  have h := claim_C5_signature_verification fixSha1 "K1\n".toList (fix40 ++ ['\n'])
    (by decide) (by decide) (by decide) (by decide)
  rw [h]
  decide

/-- C5 counterexample: a terminator followed by a 4-byte checksum line
makes the constructor return the IO error about 41 bytes, not the
IncompleteRootFileSignature error the claim names. -/
theorem claim_C5_counterexample :
    root_file_new (fun _ => []) "K1\n--\nabc\n".toList =
      RFOutcome.fails (CvmfsError.ioError ioLenMsg) ∧
    RFOutcome.fails (CvmfsError.ioError ioLenMsg) ≠
      RFOutcome.fails CvmfsError.IncompleteRootFileSignature := by
  exact ⟨rfl, by decide⟩

/-- C10: when the body of a root file contains a line shorter than two
bytes (a lone newline mid-file, or a final one-byte line), the slice
buffer[..2] in RootFile new is out of bounds and the constructor
panics instead of returning an error value. -/
theorem claim_C10_short_line_panics :
    ∀ (sha1hex : Str → Str) (B l post : Str),
      (∀ x ∈ lineSplit B, 2 ≤ x.length ∧ x.take 2 ≠ ['-', '-']) →
      (B = [] ∨ B.getLast? = some '\n') →
      l.length = 1 →
      (post = [] ∨ l = ['\n']) →
      root_file_new sha1hex (B ++ l ++ post) = RFOutcome.panics := by
  intro sha1hex B l post hbody hB hlen hpost
  obtain ⟨c, rfl⟩ : ∃ c, l = [c] := by
    cases l with
    | nil => simp at hlen
    | cons a t =>
      cases t with
      | nil => exact ⟨a, rfl⟩
      | cons b t2 => simp at hlen
  have hfirst : ∃ tail, lineSplit ([c] ++ post) = [c] :: tail := by
    rcases hpost with hpost | hpost
    · subst hpost
      exact ⟨[], by rw [List.append_nil, lineSplit_single]⟩
    · have hcn : c = '\n' := by
        have := congrArg (fun t => t.head?) hpost
        simpa using this
      subst hcn
      exact ⟨lineSplit post, by rw [List.singleton_append, lineSplit_cons, if_pos rfl]⟩
  obtain ⟨tail, htail⟩ := hfirst
  have hsplit : lineSplit (B ++ [c] ++ post) = lineSplit B ++ ([c] :: tail) := by
    rw [List.append_assoc, lineSplit_append B _ hB, htail]
  unfold root_file_new
  rw [hsplit, rfLoop_body (lineSplit B) _ [] hbody, rfLoop_cons,
    if_pos (by simp)]

/-- C10 witness: the statement applied to a concrete file with an empty
body line between two well-formed lines. -/
theorem claim_C10_witness :
    root_file_new (fun _ => []) "K1\n\nX9\n".toList = RFOutcome.panics :=
  claim_C10_short_line_panics (fun _ => []) "K1\n".toList ['\n'] "X9\n".toList
    (by decide) (by decide) (by decide) (Or.inr rfl)
